import Mathlib

/-!
Shallow embedding of `morning_dashboard.py` (Manantra/morning-dashboard).

Pure computations of the script are translated into executable Lean
definitions; the effectful boundaries (HTTP fetches, subprocess runs,
file reads, the clock) are passed in as explicit arguments, so that each
adapter becomes a pure function of its observed inputs.
-/

namespace MorningDashboard

/-- Whitespace test used by the embeddings of Python's `str.split` and
`str.strip`. -/
def isWs (c : Char) : Bool := c.isWhitespace

/-- Embedding of Python `str.split()` (split on whitespace runs, dropping
empty fields) at the character level; `acc` is the reversed current
word. -/
def splitWsAcc : List Char → List Char → List String
  | [], acc => if acc = [] then [] else [String.mk acc.reverse]
  | c :: cs, acc =>
    if isWs c then
      if acc = [] then splitWsAcc cs []
      else String.mk acc.reverse :: splitWsAcc cs []
    else splitWsAcc cs (c :: acc)

/-- Embedding of Python `text.split()` for strings. -/
def pySplitWs (s : String) : List String := splitWsAcc s.data []

/-- Character-level embedding of Python `" ".join(words)`. -/
def joinChars : List String → List Char
  | [] => []
  | [w] => w.data
  | w :: ws => w.data ++ ' ' :: joinChars ws

/-- Embedding of Python `" ".join(words)`. -/
def pyJoin (ws : List String) : String := String.mk (joinChars ws)

/-- Embedding of Python `str.lstrip()`. -/
def pyLstrip (s : String) : String := String.mk (s.data.dropWhile isWs)

/-- Embedding of Python `str.strip()` (drop leading and trailing
whitespace). -/
def pyStrip (s : String) : String :=
  String.mk (((s.data.dropWhile isWs).reverse.dropWhile isWs).reverse)

/-- Embedding of Python `s.startswith(p)`. -/
def pyStartsWith (s p : String) : Bool := p.data.isPrefixOf s.data

/-- Embedding of Python `str.lower()` (ASCII case folding). -/
def pyLower (s : String) : String := String.mk (s.data.map Char.toLower)

/-- Embedding of Python `s[n:]` (drop the first `n` characters). -/
def pyDrop (s : String) (n : Nat) : String := String.mk (s.data.drop n)

/-- Embedding of Python `s.split("\n")` at the character level: split on
every newline, keeping empty fields. -/
def splitNlChars : List Char → List (List Char)
  | [] => [[]]
  | c :: cs =>
    match splitNlChars cs with
    | [] => [[]]
    | g :: gs => if c = '\n' then [] :: g :: gs else (c :: g) :: gs

/-- Embedding of Python `s.split("\n")`. -/
def pySplitNl (s : String) : List String := (splitNlChars s.data).map String.mk

/-- Embedding of Python `str.split(maxsplit=1)`: first whitespace-run
delimited token, then the remainder with its leading whitespace removed. -/
def pySplitMax1 (s : String) : List String :=
  let cs := s.data.dropWhile isWs
  match cs with
  | [] => []
  | c :: rest =>
    let w := String.mk (c :: rest.takeWhile (fun d => !(isWs d)))
    let rem := (rest.dropWhile (fun d => !(isWs d))).dropWhile isWs
    if rem = [] then [w] else [w, String.mk rem]

/-- Loop body of `_wrap` (morning_dashboard.py:325-339): greedy word
accumulation.  `meas` embeds `draw.textbbox((0,0), ·, font)[2]`. -/
def wrapAux (meas : String → Int) (maxW : Int) : List String → List String → List String
  | [], cur => if cur = [] then [] else [pyJoin cur]
  | w :: ws, cur =>
    let trial := pyStrip (pyJoin (cur ++ [w]))
    if meas trial ≤ maxW ∨ cur = [] then wrapAux meas maxW ws (cur ++ [w])
    else pyJoin cur :: wrapAux meas maxW ws [w]

/-- Embedding of `_wrap(draw, text, font, max_width)`
(morning_dashboard.py:325-339): greedy word-wrap against the measured
width `meas`. -/
def _wrap (meas : String → Int) (maxW : Int) (text : String) : List String :=
  wrapAux meas maxW (pySplitWs text) []

/-- Every multi-word prefix of the word list measures within `maxW`
(after the trial-string strip) — the invariant each emitted line of
`_wrap` satisfies by construction. -/
def PrefixPass (meas : String → Int) (maxW : Int) (ws : List String) : Prop :=
  ∀ k, 2 ≤ k → k ≤ ws.length → meas (pyStrip (pyJoin (ws.take k))) ≤ maxW

/-- The eight compass labels of `_wind_dir_label`
(morning_dashboard.py:123-130). -/
def windDirs : List String := ["N", "NO", "O", "SO", "S", "SW", "W", "NW"]

/-- Embedding of `_wind_dir_label(deg)` (morning_dashboard.py:123-130):
`idx = int((deg + 22.5) // 45) % 8`, with the `except`-arm returning "?"
modelled by the out-of-range default of `List.get?`. -/
def _wind_dir_label (deg : ℚ) : String :=
  let idx : Nat := ((Int.floor ((deg + 22.5) / 45)) % 8).toNat
  (windDirs.get? idx).getD "?"

/-- Fields extracted from one Open-Meteo response in `get_weather`
(morning_dashboard.py:153-162).  Numeric JSON values are rationals. -/
structure WFields where
  t : Option ℚ
  hum : Option ℚ
  ws : Option ℚ
  wd : Option ℚ
  wcode : Option Int
  tmax : Option ℚ
  tmin : Option ℚ

/-- The structured dict returned by `get_weather`
(morning_dashboard.py:133-185).  Python's list may hold `None` entries,
hence `Option` elements. -/
structure WSnapshot where
  ok : Bool
  weather_code : Option Int
  lines : List (Option (String × String))
deriving DecidableEq

/-- Number-to-text formatting of the weather lines (`f"{t:.1f}°C aktuell"`
and friends) is float formatting; it is abstracted into three functions. -/
structure WFmt where
  temp : ℚ → String            -- f"{t:.1f}°C aktuell"
  range : ℚ → ℚ → String       -- f"{tmin:.1f}°C / {tmax:.1f}°C"
  humidity : ℚ → String        -- f"{int(hum)}% Luftfeuchte"
  speed : ℚ → String           -- f"{float(ws):.0f} km/h"

/-- One loop body of `get_weather` (morning_dashboard.py:149-183): parse
the fetched fields, `raise ValueError` (-> `Except.error`) when the
required fields are missing, otherwise build the success snapshot. -/
def weatherTry (fmt : WFmt) (r : WFields) : Except Unit WSnapshot :=
  match r.t, r.tmax, r.tmin with
  | some t, some tmax, some tmin =>
    Except.ok
      { ok := true
        weather_code := r.wcode
        lines :=
          [ some ("temp", fmt.temp t)
          , some ("range", fmt.range tmin tmax)
          , (match r.hum with
             | some hu => some ("humidity", fmt.humidity hu)
             | none => none)
          , (match r.ws with
             | some wsv =>
               some ("wind",
                 match r.wd with
                 | some wdv => _wind_dir_label wdv ++ " " ++ fmt.speed wsv
                 | none => fmt.speed wsv)
             | none => none) ] }
  | _, _, _ => Except.error ()

/-- The snapshot returned after all retries fail
(morning_dashboard.py:185). -/
def weatherFailSnapshot : WSnapshot :=
  { ok := false
    weather_code := none
    lines := [some ("info", "Wetterdaten nicht verfügbar")] }

/-- The retry loop `for _ in range(3)` of `get_weather`
(morning_dashboard.py:148-185); `attempts i` is the outcome of the i-th
fetch (`Except.error` = network error / timeout / JSON failure). -/
def weatherGo (fmt : WFmt) (attempts : Nat → Except Unit WFields) :
    Nat → Nat → WSnapshot
  | 0, _ => weatherFailSnapshot
  | n + 1, i =>
    match attempts i with
    | Except.error _ => weatherGo fmt attempts n (i + 1)
    | Except.ok r =>
      match weatherTry fmt r with
      | Except.error _ => weatherGo fmt attempts n (i + 1)
      | Except.ok s => s

/-- Embedding of `get_weather()` (morning_dashboard.py:133-185). -/
def get_weather (fmt : WFmt) (attempts : Nat → Except Unit WFields) : WSnapshot :=
  weatherGo fmt attempts 3 0

/-- Embedding of `get_calendar()` (morning_dashboard.py:188-201).
`runRes` is the outcome of the `subprocess.run` call: `Except.error e`
embeds a raised exception rendered as `str(e)`, `Except.ok out` the
captured stdout. -/
def get_calendar (runRes : Except String String) : List String :=
  match runRes with
  | Except.error e => ["Fehler: " ++ e]
  | Except.ok out =>
    let lines := if out = "" then [] else pySplitNl (pyStrip out)
    let events := lines.filter (fun l => !(pyStartsWith l "Today,") && pyStrip l != "")
    if events = [] then ["Keine Termine"] else events

/-- The filtering loop of `get_todos_lines`
(morning_dashboard.py:223-232): keep only stripped checkbox-task lines. -/
def todoTasks : List String → List String
  | [] => []
  | ln :: rest =>
    let s := pyStrip ln
    if s = "" then todoTasks rest
    else if pyStartsWith s "#" then todoTasks rest
    else if pyStartsWith s "- [" then s :: todoTasks rest
    else todoTasks rest

/-- Embedding of `get_todos_lines(max_lines=6)`
(morning_dashboard.py:204-241).  `file = none` embeds both the missing
file and a raised read exception (both arms return the placeholder). -/
def get_todos_lines (file : Option (List String)) (max_lines : Nat := 6) : List String :=
  match file with
  | none => ["Keine To-dos für heute"]
  | some raw =>
    let tasks := todoTasks raw
    if tasks = [] then ["Keine To-dos für heute"]
    else if max_lines < tasks.length then
      tasks.take max_lines ++ ["… (+" ++ toString (tasks.length - max_lines) ++ " weitere)"]
    else tasks

/-- One parsed entry of `birthdays.json` (morning_dashboard.py:262-265):
`data.get("day")`, `data.get("month")`, `data.get("year")`. -/
structure BEntry where
  day : Option Nat
  month : Option Nat
  year : Option Int
deriving DecidableEq

/-- A proleptic-Gregorian calendar date as used by `datetime.date`. -/
structure PyDate where
  year : Nat
  month : Nat
  day : Nat
deriving DecidableEq

/-- Gregorian leap-year test (as in `calendar.isleap` / `datetime`). -/
def isLeap (y : Nat) : Bool := y % 4 = 0 && (y % 100 != 0 || y % 400 = 0)

/-- Days in a month of a given year (as validated by `date.replace`). -/
def daysInMonth (y m : Nat) : Nat :=
  if m = 2 then (if isLeap y then 29 else 28)
  else if m = 4 ∨ m = 6 ∨ m = 9 ∨ m = 11 then 30 else 31

/-- Cumulative day count before each month in a non-leap year. -/
def monthOffset : Nat → Nat
  | 1 => 0 | 2 => 31 | 3 => 59 | 4 => 90 | 5 => 120 | 6 => 151
  | 7 => 181 | 8 => 212 | 9 => 243 | 10 => 273 | 11 => 304 | 12 => 334
  | _ => 0

/-- Days before the first of month `m` in year `y` (Feb 29 included). -/
def daysBeforeMonth (y m : Nat) : Nat :=
  monthOffset m + (if 2 < m ∧ isLeap y then 1 else 0)

/-- Number of leap years strictly before year `y` (Gregorian). -/
def leapsBefore (y : Nat) : Nat := (y - 1) / 4 - (y - 1) / 100 + (y - 1) / 400

/-- `datetime.date.toordinal`: day number of a date in the proleptic
Gregorian calendar (0001-01-01 is day 1).  Date subtraction
`(b - a).days` in the source is the difference of ordinals. -/
def toOrdinal (d : PyDate) : Nat :=
  365 * (d.year - 1) + leapsBefore d.year + daysBeforeMonth d.year d.month + d.day

/-- Validity check performed by `date.replace` (raises `ValueError`
otherwise). -/
def validDate (y m d : Nat) : Prop :=
  1 ≤ m ∧ m ≤ 12 ∧ 1 ≤ d ∧ d ≤ daysInMonth y m

instance (y m d : Nat) : Decidable (validDate y m d) := by
  unfold validDate; infer_instance

/-- `datetime.date` comparison (lexicographic year, month, day). -/
def dateLt (a b : PyDate) : Prop :=
  a.year < b.year ∨ (a.year = b.year ∧
    (a.month < b.month ∨ (a.month = b.month ∧ a.day < b.day)))

instance (a b : PyDate) : Decidable (dateLt a b) := by
  unfold dateLt; infer_instance

/-- The per-entry loop of `get_upcoming_birthdays`
(morning_dashboard.py:262-288): skip falsy or missing day/month, skip
invalid calendar dates, roll past dates to next year, keep entries inside
the horizon, and record `(days_until, name, age)` (`age = none` embeds
Python's `None`, which also results from a falsy stored year). -/
def collectBirthdays (today : PyDate) (days : Int) :
    List (String × BEntry) → List (Int × String × Option Int)
  | [] => []
  | (name, e) :: rest =>
    match e.day, e.month with
    | some d, some m =>
      if d = 0 ∨ m = 0 then collectBirthdays today days rest
      else if ¬ validDate today.year m d then collectBirthdays today days rest
      else if dateLt ⟨today.year, m, d⟩ today ∧ ¬ validDate (today.year + 1) m d then
        collectBirthdays today days rest
      else
        let bty : PyDate :=
          if dateLt ⟨today.year, m, d⟩ today then ⟨today.year + 1, m, d⟩
          else ⟨today.year, m, d⟩
        let days_until : Int := (toOrdinal bty : Int) - (toOrdinal today : Int)
        if days_until ≤ days then
          let age : Option Int :=
            match e.year with
            | some yb => if yb = 0 then none else some ((bty.year : Int) - yb)
            | none => none
          (days_until, name, age) :: collectBirthdays today days rest
        else collectBirthdays today days rest
    | _, _ => collectBirthdays today days rest

/-- Stable insertion used to embed Python's stable
`list.sort(key=lambda x: x[0])` (morning_dashboard.py:291). -/
def insertByDays (x : Int × String × Option Int) :
    List (Int × String × Option Int) → List (Int × String × Option Int)
  | [] => [x]
  | y :: ys => if y.1 ≤ x.1 then y :: insertByDays x ys else x :: y :: ys

/-- Embedding of `upcoming.sort(key=lambda x: x[0])`: a stable ascending
sort on the first component. -/
def sortByDays (l : List (Int × String × Option Int)) :
    List (Int × String × Option Int) :=
  l.foldl (fun acc x => insertByDays x acc) []

/-- The formatting step of `get_upcoming_birthdays`
(morning_dashboard.py:294-305): `age_str` is empty for a falsy (absent or
zero) age. -/
def formatBirthday (days_until : Int) (name : String) (age : Option Int) : String :=
  let age_str :=
    match age with
    | some a => if a = 0 then "" else " (" ++ toString a ++ ")"
    | none => ""
  let pfx :=
    if days_until = 0 then "Heute"
    else if days_until = 1 then "Morgen"
    else "in " ++ toString days_until ++ " Tagen"
  pfx ++ ": " ++ name ++ age_str

/-- The age suffix of a formatted birthday line: present only for a
truthy (known and nonzero) age. -/
def ageSuffix (age : Option Int) : String :=
  match age with
  | some a => if a = 0 then "" else " (" ++ toString a ++ ")"
  | none => ""

/-- Embedding of `get_upcoming_birthdays(days=7)`
(morning_dashboard.py:244-307).  `file = none` embeds
`FileNotFoundError` / `json.JSONDecodeError`; `some entries` is the
parsed JSON mapping in iteration order. -/
def get_upcoming_birthdays (today : PyDate)
    (file : Option (List (String × BEntry))) (days : Int := 7) : List String :=
  match file with
  | none => []
  | some birthdays =>
    let upcoming := collectBirthdays today days birthdays
    (sortByDays upcoming).map (fun t => formatBirthday t.1 t.2.1 t.2.2)

/-- The drawn weather glyphs of the icon synthesizer
(morning_dashboard.py:438-522), identified by shape and flags:
`cloudIcon size rain snow` embeds `_icon_cloud(size, rain=…, snow=…)`. -/
inductive IconImage : Type
  | sunIcon (size : Int)
  | cloudIcon (size : Int) (rain snow : Bool)
  | fogIcon (size : Int)
deriving DecidableEq

/-- Embedding of `_weather_code_to_kind(code)`
(morning_dashboard.py:410-436). -/
def _weather_code_to_kind (code : Option Int) : String :=
  match code with
  | none => "cloud"
  | some c =>
    if c = 0 then "sun"
    else if c = 1 ∨ c = 2 ∨ c = 3 then "cloud"
    else if c = 45 ∨ c = 48 then "fog"
    else if c = 51 ∨ c = 53 ∨ c = 55 ∨ c = 56 ∨ c = 57 then "drizzle"
    else if c = 61 ∨ c = 63 ∨ c = 65 ∨ c = 66 ∨ c = 67 then "rain"
    else if c = 71 ∨ c = 73 ∨ c = 75 ∨ c = 77 then "snow"
    else if c = 80 ∨ c = 81 ∨ c = 82 then "rain"
    else if c = 85 ∨ c = 86 then "snow"
    else if c = 95 ∨ c = 96 ∨ c = 99 then "storm"
    else "cloud"

/-- Embedding of `_pick_icon_for_weather(kind, size)`
(morning_dashboard.py:513-522). -/
def _pick_icon_for_weather (kind : String) (size : Int) : IconImage :=
  if kind = "sun" then IconImage.sunIcon size
  else if kind = "rain" ∨ kind = "drizzle" ∨ kind = "storm" then
    IconImage.cloudIcon size true false
  else if kind = "snow" then IconImage.cloudIcon size false true
  else if kind = "fog" then IconImage.fogIcon size
  else IconImage.cloudIcon size false false

/-- The two visual styles resolved from `DASH_STYLE`
(morning_dashboard.py:355-361). -/
inductive DashStyle : Type
  | cards
  | list
deriving DecidableEq

/-- Embedding of the nested `_clean_todo(s)` (morning_dashboard.py:562-570). -/
def _clean_todo (s0 : String) : String :=
  let s := pyStrip s0
  let s :=
    if pyStartsWith s "- [ ] " then pyDrop s 6
    else if pyStartsWith s "- [x] " then pyDrop s 6
    else if pyStartsWith s "- [X] " then pyDrop s 6
    else s
  if pyStartsWith s "-" then pyStrip (pyDrop s 1) else s

/-- Header identity test `is_todos` (morning_dashboard.py:572-573). -/
def isTodosHeader (header : String) : Bool :=
  ["to-dos", "to‑dos", "to-do", "to‑do", "todos", "to dos"].contains
    (pyLower (pyStrip header))

/-- Header identity test `is_calendar` (morning_dashboard.py:574). -/
def isCalendarHeader (header : String) : Bool :=
  ["termine", "kalender", "calendar", "events"].contains (pyLower (pyStrip header))

/-- `ln.split(maxsplit=1)[0]` guarded by `ln.strip()` being truthy. -/
def firstToken (s : String) : String :=
  match pySplitMax1 s with
  | [] => ""
  | a :: _ => a

/-- `first[0].count(":")`: occurrences of the colon character. -/
def countColon (s : String) : Nat := (s.data.filter (fun c => c = ':')).length

/-- The physical text lines one logical item of `card_block` produces,
with the hanging-indent prefixes applied to their first line
(morning_dashboard.py:576-628).  The vertical cursor arithmetic is the
same in all three branches, so the branches differ only in this list. -/
def renderItem (meas : String → Int) (maxW : Int) (isT isC : Bool)
    (ln0 : String) : List String :=
  let ln := if isT then "• " ++ _clean_todo ln0 else ln0
  if pyStartsWith ln "• " then
    let bw := meas "• "
    let content := pyLstrip (pyDrop ln 2)
    match _wrap meas (maxW - bw) content with
    | [] => []
    | w0 :: rest => ("• " ++ w0) :: rest
  else if isC && pyStrip ln != "" && (firstToken ln).data.contains ':' then
    match pySplitMax1 (pyStrip ln) with
    | [a, b] =>
      if (a.data.length = 4 ∨ a.data.length = 5) ∧ countColon a = 1 then
        let tp := a ++ " "
        let tw := meas tp
        match _wrap meas (maxW - tw) (pyStrip b) with
        | [] => []
        | w0 :: rest => (tp ++ w0) :: rest
      else _wrap meas maxW ln
    | _ => _wrap meas maxW ln
  else _wrap meas maxW ln

/-- Result of the drawing pass of one `card_block` call: the drawn
content lines with their y positions, the final cursor, and whether the
early `return yy` (overflow truncation) fired. -/
structure CardRun where
  drawn : List (Int × String)
  cursor : Int
  stopped : Bool
deriving DecidableEq

/-- The inner wrapped-line loop shared by all branches of `card_block`
(e.g. morning_dashboard.py:624-628): draw at `yy`, advance by 44, and
return immediately once `yy > y + h - 40`. -/
def drawSeq (y h : Int) (cursor : Int) : List String → CardRun
  | [] => ⟨[], cursor, false⟩
  | t :: ts =>
    let c2 := cursor + 44
    if c2 > y + h - 40 then ⟨[(cursor, t)], c2, true⟩
    else
      let r := drawSeq y h c2 ts
      ⟨(cursor, t) :: r.drawn, r.cursor, r.stopped⟩

/-- The `for i, ln in enumerate(lines)` loop of `card_block`
(morning_dashboard.py:576-638), including the divider step
(morning_dashboard.py:631-636). -/
def cardLoop (meas : String → Int) (maxW y h : Int) (isT isC dividerOn : Bool) :
    List String → Int → CardRun
  | [], c => ⟨[], c, false⟩
  | ln :: lns, c =>
    let r1 := drawSeq y h c (renderItem meas maxW isT isC ln)
    if r1.stopped then r1
    else
      let c2 := if r1.cursor < y + h - 60 ∧ dividerOn then r1.cursor + 24 else r1.cursor
      let r2 := cardLoop meas maxW y h isT isC dividerOn lns c2
      ⟨r1.drawn ++ r2.drawn, r2.cursor, r2.stopped⟩

/-- Instrumented embedding of `card_block(x, y, w, h, header, lines, …)`
(morning_dashboard.py:549-638); exposes the drawn lines and the
truncation flag in addition to the returned cursor. -/
def cardRun (meas : String → Int) (style : DashStyle) (_x y w h : Int)
    (header : String) (lines : List String) : CardRun :=
  let maxW := w - 68
  let isT := isTodosHeader header
  let isC := isCalendarHeader header
  cardLoop meas maxW y h isT isC (style = DashStyle.list || isT) lines (y + 86)

/-- Embedding of `card_block` proper: it returns the final cursor `yy`. -/
def card_block (meas : String → Int) (style : DashStyle) (x y w h : Int)
    (header : String) (lines : List String) : Int :=
  (cardRun meas style x y w h header lines).cursor

/-- Observable actions of `main()` towards the delivery endpoint. -/
inductive MainAction : Type
  | sendImage
  | sendText
deriving DecidableEq

/-- Embedding of the delivery logic of `main()`
(morning_dashboard.py:811-836): `render` is the outcome of
`render_dashboard_png` (`Except.error` = any raised exception), `photoOk`
the boolean result of `send_telegram_photo`, `textOk` that of
`send_telegram_message`.  Returns the exit code and the delivery attempts
made, in order. -/
def mainRun (render : Except Unit Unit) (photoOk : Bool) (textOk : Bool) :
    Int × List MainAction :=
  match render with
  | Except.ok _ =>
    if photoOk then (0, [MainAction.sendImage])
    else if textOk then (0, [MainAction.sendImage, MainAction.sendText])
    else (1, [MainAction.sendImage, MainAction.sendText])
  | Except.error _ =>
    if textOk then (0, [MainAction.sendText])
    else (1, [MainAction.sendText])

/-- One fetch attempt of `get_weather` fails: either the request raised
(network error, timeout, JSON failure) or the required fields were
missing (`ValueError`). -/
def attemptFails (fmt : WFmt) (attempts : Nat → Except Unit WFields) (i : Nat) : Prop :=
  attempts i = Except.error () ∨
    ∃ r, attempts i = Except.ok r ∧ weatherTry fmt r = Except.error ()

end MorningDashboard

namespace MorningDashboard

/-! ## Claim theorems -/

/-- C1 counterexample: on a process error (here a raised exception whose
text is "x"), `get_calendar` returns the one-element error list
`["Fehler: x"]`, not the claimed `["Keine Termine"]` placeholder. -/
theorem C1_counterexample :
    get_calendar (Except.error "x") = ["Fehler: x"] ∧
    get_calendar (Except.error "x") ≠ ["Keine Termine"] := by
  constructor
  · rfl
  · decide

/-- C1 (amended): `get_calendar` filters the "Today," header line and
blank lines from the tool output; when the filtered list is empty it
returns exactly `["Keine Termine"]`; on any process error it returns the
one-element list `"Fehler: <error>"` (errors are never propagated). -/
theorem C1_calendar_amended :
    (∀ e, get_calendar (Except.error e) = ["Fehler: " ++ e]) ∧
    (∀ out,
      ((if out = "" then [] else pySplitNl (pyStrip out)).filter
          (fun l => !(pyStartsWith l "Today,") && pyStrip l != "") = []) →
      get_calendar (Except.ok out) = ["Keine Termine"]) ∧
    (∀ out l, l ∈ get_calendar (Except.ok out) →
      l = "Keine Termine" ∨
      (l ∈ pySplitNl (pyStrip out) ∧ pyStartsWith l "Today," = false ∧ pyStrip l ≠ "")) := by
  refine ⟨fun e => rfl, fun out h => ?_, fun out l hl => ?_⟩
  · simp only [get_calendar, h]
    rfl
  · simp only [get_calendar] at hl
    by_cases hev : (if out = "" then [] else pySplitNl (pyStrip out)).filter
        (fun l => !(pyStartsWith l "Today,") && pyStrip l != "") = []
    · rw [if_pos hev] at hl
      left
      simpa using hl
    · rw [if_neg hev] at hl
      right
      have := List.mem_filter.mp hl
      rcases this with ⟨hmem, hprop⟩
      have hnz : out ≠ "" := by
        intro h0
        rw [if_pos h0] at hmem
        exact absurd hmem (List.not_mem_nil l)
      rw [if_neg hnz] at hmem
      refine ⟨hmem, ?_, ?_⟩
      · have := (Bool.and_eq_true _ _).mp hprop
        simpa using this.1
      · have := (Bool.and_eq_true _ _).mp hprop
        simpa using this.2

/-- C1 witness: a concrete stdout consisting only of the header and a
blank line is filtered to nothing, giving the placeholder. -/
theorem C1_calendar_amended_witness :
    get_calendar (Except.ok "Today, 12.10.2025\n") = ["Keine Termine"] :=
  C1_calendar_amended.2.1 "Today, 12.10.2025\n" (by decide)

/-- C5: the weather-code-to-icon-kind mapping is total and matches the
documented buckets exactly (0 sun; 1-3 cloud; 45/48 fog; 51-57 drizzle;
61-67 and 80-82 rain; 71-77 and 85/86 snow; 95/96/99 storm; every other
integer and `None` cloud), and `_pick_icon_for_weather` renders drizzle
and storm with the rain-cloud glyph. -/
theorem C5_weather_code_mapping :
    (_weather_code_to_kind none = "cloud") ∧
    (_weather_code_to_kind (some 0) = "sun") ∧
    (∀ c : Int, c = 1 ∨ c = 2 ∨ c = 3 → _weather_code_to_kind (some c) = "cloud") ∧
    (∀ c : Int, c = 45 ∨ c = 48 → _weather_code_to_kind (some c) = "fog") ∧
    (∀ c : Int, c = 51 ∨ c = 53 ∨ c = 55 ∨ c = 56 ∨ c = 57 →
      _weather_code_to_kind (some c) = "drizzle") ∧
    (∀ c : Int, c = 61 ∨ c = 63 ∨ c = 65 ∨ c = 66 ∨ c = 67 ∨ c = 80 ∨ c = 81 ∨ c = 82 →
      _weather_code_to_kind (some c) = "rain") ∧
    (∀ c : Int, c = 71 ∨ c = 73 ∨ c = 75 ∨ c = 77 ∨ c = 85 ∨ c = 86 →
      _weather_code_to_kind (some c) = "snow") ∧
    (∀ c : Int, c = 95 ∨ c = 96 ∨ c = 99 → _weather_code_to_kind (some c) = "storm") ∧
    (∀ c : Int,
      c ∉ ([0, 1, 2, 3, 45, 48, 51, 53, 55, 56, 57, 61, 63, 65, 66, 67, 71, 73, 75,
            77, 80, 81, 82, 85, 86, 95, 96, 99] : List Int) →
      _weather_code_to_kind (some c) = "cloud") ∧
    (∀ s, _pick_icon_for_weather "sun" s = IconImage.sunIcon s) ∧
    (∀ s (k : String), k = "rain" ∨ k = "drizzle" ∨ k = "storm" →
      _pick_icon_for_weather k s = IconImage.cloudIcon s true false) ∧
    (∀ s, _pick_icon_for_weather "snow" s = IconImage.cloudIcon s false true) ∧
    (∀ s, _pick_icon_for_weather "fog" s = IconImage.fogIcon s) ∧
    (∀ s, _pick_icon_for_weather "cloud" s = IconImage.cloudIcon s false false) := by
  refine ⟨rfl, rfl, ?_, ?_, ?_, ?_, ?_, ?_, ?_, fun s => rfl, ?_, fun s => rfl,
    fun s => rfl, fun s => rfl⟩
  · rintro c (rfl | rfl | rfl) <;> rfl
  · rintro c (rfl | rfl) <;> rfl
  · rintro c (rfl | rfl | rfl | rfl | rfl) <;> rfl
  · rintro c (rfl | rfl | rfl | rfl | rfl | rfl | rfl | rfl) <;> rfl
  · rintro c (rfl | rfl | rfl | rfl | rfl | rfl) <;> rfl
  · rintro c (rfl | rfl | rfl) <;> rfl
  · intro c h
    simp only [List.mem_cons, List.not_mem_nil, or_false] at h
    push_neg at h
    obtain ⟨e0, e1, e2, e3, e45, e48, e51, e53, e55, e56, e57, e61, e63, e65, e66,
      e67, e71, e73, e75, e77, e80, e81, e82, e85, e86, e95, e96, e99⟩ := h
    simp [_weather_code_to_kind, e0, e1, e2, e3, e45, e48, e51, e53, e55, e56, e57,
      e61, e63, e65, e66, e67, e71, e73, e75, e77, e80, e81, e82, e85, e86, e95,
      e96, e99]
  · rintro s k (rfl | rfl | rfl) <;> rfl

/-- C5 witness: weather code 2 maps to "cloud". -/
theorem C5_weather_code_mapping_witness :
    _weather_code_to_kind (some 2) = "cloud" :=
  C5_weather_code_mapping.2.2.1 2 (Or.inr (Or.inl rfl))

/-- C7: `get_todos_lines` keeps exactly the stripped checkbox-task lines
(dropping headings, blanks and prose), truncates to `max_lines` with a
single "+N weitere" suffix line, and returns the one-element placeholder
when the file is missing/unreadable or nothing survives filtering. -/
theorem C7_todo_filtering :
    (get_todos_lines (some ["# Heading", "", "- [ ] task1", "- [x] task2", "note text"]) 6 =
      ["- [ ] task1", "- [x] task2"]) ∧
    (∀ ml, get_todos_lines none ml = ["Keine To-dos für heute"]) ∧
    (∀ raw ml, todoTasks raw = [] →
      get_todos_lines (some raw) ml = ["Keine To-dos für heute"]) ∧
    (∀ raw ml, todoTasks raw ≠ [] → (todoTasks raw).length ≤ ml →
      get_todos_lines (some raw) ml = todoTasks raw) ∧
    (∀ raw ml, ml < (todoTasks raw).length →
      get_todos_lines (some raw) ml =
        (todoTasks raw).take ml ++
          ["… (+" ++ toString ((todoTasks raw).length - ml) ++ " weitere)"]) ∧
    (∀ raw, todoTasks raw = (raw.map pyStrip).filter
      (fun s => s != "" && !(pyStartsWith s "#") && pyStartsWith s "- [")) := by
  refine ⟨by decide, fun ml => rfl, fun raw ml h => ?_, fun raw ml h1 h2 => ?_,
    fun raw ml h => ?_, fun raw => ?_⟩
  · simp only [get_todos_lines, h]
    rfl
  · simp only [get_todos_lines]
    rw [if_neg h1, if_neg (Nat.not_lt.mpr h2)]
  · have h1 : todoTasks raw ≠ [] := by
      intro h0
      rw [h0] at h
      simp at h
    simp only [get_todos_lines]
    rw [if_neg h1, if_pos h]
  · induction raw with
    | nil => rfl
    | cons ln rest ih =>
      simp only [todoTasks, List.map_cons, List.filter_cons]
      by_cases h1 : pyStrip ln = ""
      · simp [h1, ih]
      · by_cases h2 : pyStartsWith (pyStrip ln) "#"
        · simp [h1, h2, ih]
        · by_cases h3 : pyStartsWith (pyStrip ln) "- ["
          · simp [h1, h2, h3, ih]
          · simp [h1, h2, h3, ih]

/-- C7 witness: eight surviving tasks with the default maximum of 6 give
the first six plus a "+2 weitere" suffix line. -/
theorem C7_todo_filtering_witness :
    get_todos_lines (some ["- [ ] a", "- [ ] b", "- [ ] c", "- [ ] d", "- [ ] e",
      "- [ ] f", "- [ ] g", "- [ ] h"]) 6 =
      ["- [ ] a", "- [ ] b", "- [ ] c", "- [ ] d", "- [ ] e", "- [ ] f",
        "… (+2 weitere)"] :=
  C7_todo_filtering.2.2.2.2.1
    ["- [ ] a", "- [ ] b", "- [ ] c", "- [ ] d", "- [ ] e", "- [ ] f", "- [ ] g",
      "- [ ] h"] 6 (by decide)

/-- Every entry of the compass table differs from the error label "?". -/
theorem windDirs_ne_err : ∀ n, n < 8 → windDirs.getD n "?" ≠ "?" := by decide

/-- C8: for every direction in [0, 360) the label is the compass-table
entry at index `floor((deg+22.5)/45) mod 8`, that index is always in
range (the fallback "?" arm is unreachable), and both 0 and 359 degrees
fall in the "N" bucket. -/
theorem C8_wind_buckets :
    (∀ deg : ℚ, 0 ≤ deg → deg < 360 →
      ((Int.floor ((deg + 22.5) / 45)) % 8).toNat < windDirs.length ∧
      _wind_dir_label deg = windDirs.getD ((Int.floor ((deg + 22.5) / 45)) % 8).toNat "?" ∧
      _wind_dir_label deg ≠ "?") ∧
    _wind_dir_label 0 = "N" ∧
    _wind_dir_label 359 = "N" := by
  refine ⟨fun deg h0 h1 => ?_, ?_, ?_⟩
  · have hm : 0 ≤ Int.floor ((deg + 22.5) / 45) % 8 :=
      Int.emod_nonneg _ (by norm_num)
    have hlt : Int.floor ((deg + 22.5) / 45) % 8 < 8 :=
      Int.emod_lt_of_pos _ (by norm_num)
    have hidx : ((Int.floor ((deg + 22.5) / 45)) % 8).toNat < 8 := by omega
    refine ⟨by simpa [windDirs] using hidx, rfl, ?_⟩
    exact windDirs_ne_err _ hidx
  · have h : ((Int.floor (((0 : ℚ) + 22.5) / 45)) % 8).toNat = 0 := by norm_num
    simp only [_wind_dir_label, h]
    rfl
  · have h : ((Int.floor (((359 : ℚ) + 22.5) / 45)) % 8).toNat = 0 := by
      norm_num
    simp only [_wind_dir_label, h]
    rfl

/-- C8 witness: 90 degrees is in range and maps to its bucket. -/
theorem C8_wind_buckets_witness :
    ((Int.floor (((90 : ℚ) + 22.5) / 45)) % 8).toNat < windDirs.length ∧
    _wind_dir_label 90 = windDirs.getD ((Int.floor (((90 : ℚ) + 22.5) / 45)) % 8).toNat "?" ∧
    _wind_dir_label 90 ≠ "?" :=
  C8_wind_buckets.1 90 (by norm_num) (by norm_num)

/-- C9: `main` exits 0 exactly when a delivery succeeds — image delivery
success returns 0 with no text send; a render failure or image-delivery
failure falls through to the text path (never retrying the image, which
is attempted at most once) and returns 0 iff text delivery succeeds,
1 otherwise. -/
theorem C9_exit_codes : ∀ (render : Except Unit Unit) (photoOk textOk : Bool),
    ((mainRun render photoOk textOk).1 = 0 ↔
      (render = Except.ok () ∧ photoOk = true) ∨ textOk = true) ∧
    (render = Except.ok () → photoOk = true →
      mainRun render photoOk textOk = (0, [MainAction.sendImage])) ∧
    ((render = Except.error () ∨ photoOk = false) →
      ((mainRun render photoOk textOk).2.count MainAction.sendImage ≤ 1 ∧
       MainAction.sendText ∈ (mainRun render photoOk textOk).2 ∧
       (mainRun render photoOk textOk).1 = if textOk then 0 else 1)) := by
  intro render p t
  rcases render with u | u <;> cases u <;> cases p <;> cases t <;>
    simp [mainRun]

/-- C9 witness: render succeeds but image delivery fails, text delivery
succeeds, so the run exits 0 after one image attempt and a text send. -/
theorem C9_exit_codes_witness :
    (mainRun (Except.ok ()) false true).2.count MainAction.sendImage ≤ 1 ∧
    MainAction.sendText ∈ (mainRun (Except.ok ()) false true).2 ∧
    (mainRun (Except.ok ()) false true).1 = if true then 0 else 1 :=
  (C9_exit_codes (Except.ok ()) false true).2.2 (Or.inr rfl)

/-- C10: the birthday age suffix is appended only for a truthy (nonzero)
age — a computed age of 0 is formatted exactly like an unknown year, and
a concrete entry born in the occurrence year renders without "(0)". -/
theorem C10_zero_age_suffix :
    (∀ d n, formatBirthday d n (some 0) = formatBirthday d n none) ∧
    (∀ d n (a : Int), a ≠ 0 →
      formatBirthday d n (some a) = formatBirthday d n none ++ " (" ++ toString a ++ ")") ∧
    (get_upcoming_birthdays ⟨2024, 6, 10⟩ (some [("Kid", ⟨some 10, some 6, some 2024⟩)]) 7 =
      ["Heute: Kid"]) := by
  refine ⟨fun d n => rfl, fun d n a ha => ?_, by decide⟩
  simp only [formatBirthday, if_neg ha]
  simp [String.append_assoc, String.append_empty]

/-- `takeWhile` keeps a wholly satisfying list. -/
theorem takeWhile_all {α : Type} (p : α → Bool) :
    ∀ l : List α, (∀ x ∈ l, p x = true) → l.takeWhile p = l
  | [], _ => rfl
  | a :: l, h => by
    have ha : p a = true := h a (List.mem_cons_self a l)
    simp only [List.takeWhile_cons, ha, if_true]
    rw [takeWhile_all p l (fun x hx => h x (List.mem_cons_of_mem a hx))]

/-- `dropWhile` drops a wholly satisfying list. -/
theorem dropWhile_all {α : Type} (p : α → Bool) :
    ∀ l : List α, (∀ x ∈ l, p x = true) → l.dropWhile p = []
  | [], _ => rfl
  | a :: l, h => by
    have ha : p a = true := h a (List.mem_cons_self a l)
    simp only [List.dropWhile_cons, ha, if_true]
    exact dropWhile_all p l (fun x hx => h x (List.mem_cons_of_mem a hx))

/-- `takeWhile` over an append whose first part wholly satisfies `p`. -/
theorem takeWhile_append_all {α : Type} (p : α → Bool) :
    ∀ (l1 l2 : List α), (∀ x ∈ l1, p x = true) →
      (l1 ++ l2).takeWhile p = l1 ++ l2.takeWhile p
  | [], l2, _ => rfl
  | a :: l1, l2, h => by
    have ha : p a = true := h a (List.mem_cons_self a l1)
    simp only [List.cons_append, List.takeWhile_cons, ha, if_true]
    rw [takeWhile_append_all p l1 l2 (fun x hx => h x (List.mem_cons_of_mem a hx))]

/-- `dropWhile` over an append whose first part wholly satisfies `p`. -/
theorem dropWhile_append_all {α : Type} (p : α → Bool) :
    ∀ (l1 l2 : List α), (∀ x ∈ l1, p x = true) →
      (l1 ++ l2).dropWhile p = l2.dropWhile p
  | [], l2, _ => rfl
  | a :: l1, l2, h => by
    have ha : p a = true := h a (List.mem_cons_self a l1)
    simp only [List.cons_append, List.dropWhile_cons, ha, if_true]
    exact dropWhile_append_all p l1 l2 (fun x hx => h x (List.mem_cons_of_mem a hx))

/-- Words produced by the Python whitespace split are nonempty and free
of whitespace characters. -/
theorem splitWsAcc_good :
    ∀ (cs : List Char) (acc : List Char), (∀ c ∈ acc, isWs c = false) →
      ∀ w ∈ splitWsAcc cs acc, w.data ≠ [] ∧ ∀ c ∈ w.data, isWs c = false
  | [], acc, hacc => by
    intro w hw
    simp only [splitWsAcc] at hw
    split at hw
    · exact absurd hw (List.not_mem_nil w)
    · rename_i hne
      rcases List.mem_singleton.mp hw with rfl
      refine ⟨by simpa using hne, ?_⟩
      intro c hc
      exact hacc c (by simpa using hc)
  | c :: cs, acc, hacc => by
    intro w hw
    simp only [splitWsAcc] at hw
    by_cases hws : isWs c
    · rw [if_pos hws] at hw
      by_cases hacc0 : acc = []
      · rw [if_pos hacc0] at hw
        exact splitWsAcc_good cs [] (by simp) w hw
      · rw [if_neg hacc0] at hw
        rcases List.mem_cons.mp hw with rfl | hw2
        · refine ⟨by simpa using hacc0, ?_⟩
          intro d hd
          exact hacc d (by simpa using hd)
        · exact splitWsAcc_good cs [] (by simp) w hw2
    · rw [if_neg hws] at hw
      refine splitWsAcc_good cs (c :: acc) ?_ w hw
      intro d hd
      rcases List.mem_cons.mp hd with rfl | hd2
      · simpa using hws
      · exact hacc d hd2

/-- Mid-word characterization of the accumulator splitter. -/
theorem splitWsAcc_mid :
    ∀ (cs : List Char) (acc : List Char), acc ≠ [] →
      splitWsAcc cs acc =
        String.mk (acc.reverse ++ cs.takeWhile (fun d => !(isWs d))) ::
          splitWsAcc (cs.dropWhile (fun d => !(isWs d))) []
  | [], acc, hacc => by
    simp [splitWsAcc, hacc]
  | c :: cs, acc, hacc => by
    by_cases hws : isWs c
    · have hp : (fun d => !(isWs d)) c = false := by simpa using hws
      simp only [splitWsAcc, if_pos hws, if_neg hacc, List.takeWhile_cons, hp,
        Bool.false_eq_true, if_false, List.dropWhile_cons, List.append_nil]
      rfl
    · have hp : (fun d => !(isWs d)) c = true := by simpa using hws
      have hrec := splitWsAcc_mid cs (c :: acc) (by simp)
      simp only [splitWsAcc, if_neg hws, List.takeWhile_cons, hp, if_true,
        List.dropWhile_cons]
      rw [hrec]
      simp

/-- Splitting the joined word list recovers it, provided all words are
nonempty and whitespace-free. -/
theorem splitWs_join :
    ∀ ws : List String, ws ≠ [] →
      (∀ w ∈ ws, w.data ≠ [] ∧ ∀ c ∈ w.data, isWs c = false) →
      splitWsAcc (joinChars ws) [] = ws
  | [], h, _ => absurd rfl h
  | [w], _, hgood => by
    obtain ⟨hne, hchars⟩ := hgood w (List.mem_singleton_self w)
    rcases hd : w.data with _ | ⟨c, t⟩
    · exact absurd hd hne
    · have hct : ∀ c2 ∈ c :: t, isWs c2 = false := by
        rw [← hd]
        exact hchars
      have hc : isWs c = false := hct c (List.mem_cons_self c t)
      have ht : ∀ c2 ∈ t, isWs c2 = false := fun c2 h2 => hct c2 (List.mem_cons_of_mem c h2)
      have hwt : t.takeWhile (fun d => !(isWs d)) = t :=
        takeWhile_all _ t (fun x hx => by simp [ht x hx])
      have hwd : t.dropWhile (fun d => !(isWs d)) = [] :=
        dropWhile_all _ t (fun x hx => by simp [ht x hx])
      show splitWsAcc (joinChars [w]) [] = [w]
      have hj : joinChars [w] = c :: t := by
        simpa [joinChars] using hd
      rw [hj]
      simp only [splitWsAcc, hc, Bool.false_eq_true, if_false]
      rw [splitWsAcc_mid t [c] (by simp), hwt, hwd]
      simp only [List.reverse_singleton, List.singleton_append, splitWsAcc, if_true]
      rw [← hd]
  | w :: w2 :: ws, _, hgood => by
    obtain ⟨hne, hchars⟩ := hgood w (List.mem_cons_self w (w2 :: ws))
    rcases hd : w.data with _ | ⟨c, t⟩
    · exact absurd hd hne
    · have hct : ∀ c2 ∈ c :: t, isWs c2 = false := by
        rw [← hd]
        exact hchars
      have hc : isWs c = false := hct c (List.mem_cons_self c t)
      have ht : ∀ x ∈ t, (fun d => !(isWs d)) x = true := by
        intro x hx
        simp [hct x (List.mem_cons_of_mem c hx)]
      have hj : joinChars (w :: w2 :: ws) = c :: (t ++ ' ' :: joinChars (w2 :: ws)) := by
        show w.data ++ ' ' :: joinChars (w2 :: ws) = _
        rw [hd]
        rfl
      rw [hj]
      simp only [splitWsAcc, hc, Bool.false_eq_true, if_false]
      rw [splitWsAcc_mid (t ++ ' ' :: joinChars (w2 :: ws)) [c] (by simp)]
      rw [takeWhile_append_all _ t _ ht, dropWhile_append_all _ t _ ht]
      have hsp : (' ' :: joinChars (w2 :: ws)).takeWhile (fun d => !(isWs d)) = [] := by
        simp [List.takeWhile_cons, isWs]
      have hdp : (' ' :: joinChars (w2 :: ws)).dropWhile (fun d => !(isWs d)) =
          ' ' :: joinChars (w2 :: ws) := by
        simp [List.dropWhile_cons, isWs]
      rw [hsp, hdp, List.append_nil]
      have htail : splitWsAcc (' ' :: joinChars (w2 :: ws)) [] =
          splitWsAcc (joinChars (w2 :: ws)) [] := by
        simp [splitWsAcc, isWs]
      rw [htail,
        splitWs_join (w2 :: ws) (by simp)
          (fun x hx => hgood x (List.mem_cons_of_mem w hx))]
      simp only [List.reverse_singleton, List.singleton_append, List.cons.injEq]
      exact ⟨by rw [← hd], trivial⟩

/-- If every extension of `cur` by a prefix of `rest` measures within
`maxW`, the greedy loop emits the single joined line. -/
theorem wrapAux_all_fit (meas : String → Int) (maxW : Int) :
    ∀ (rest cur : List String), cur ≠ [] →
      (∀ k, 1 ≤ k → k ≤ rest.length →
        meas (pyStrip (pyJoin (cur ++ rest.take k))) ≤ maxW) →
      wrapAux meas maxW rest cur = [pyJoin (cur ++ rest)]
  | [], cur, hcur, _ => by
    simp [wrapAux, hcur]
  | w :: rs, cur, hcur, h => by
    have h1 : meas (pyStrip (pyJoin (cur ++ [w]))) ≤ maxW := by
      simpa using h 1 (Nat.le_refl 1) (by simp)
    simp only [wrapAux, if_pos (Or.inl h1)]
    rw [wrapAux_all_fit meas maxW rs (cur ++ [w]) (by simp) ?_]
    · rw [List.append_assoc]
      rfl
    · intro k hk1 hk2
      have := h (k + 1) (by omega) (by simpa using Nat.succ_le_succ hk2)
      rw [List.append_assoc]
      simpa using this

/-- Every line emitted by the greedy loop is the join of a nonempty word
list all of whose multi-word prefixes fit, with words drawn from the
initial accumulator or the remaining input. -/
theorem wrapAux_lines (meas : String → Int) (maxW : Int) :
    ∀ (rest cur : List String), PrefixPass meas maxW cur →
      ∀ L ∈ wrapAux meas maxW rest cur,
        ∃ ws2, ws2 ≠ [] ∧ PrefixPass meas maxW ws2 ∧ L = pyJoin ws2 ∧
          ∀ w ∈ ws2, w ∈ cur ∨ w ∈ rest
  | [], cur, hpass => by
    intro L hL
    simp only [wrapAux] at hL
    split at hL
    · exact absurd hL (List.not_mem_nil L)
    · rename_i hne
      rcases List.mem_singleton.mp hL with rfl
      exact ⟨cur, hne, hpass, rfl, fun w hw => Or.inl hw⟩
  | w :: rs, cur, hpass => by
    intro L hL
    simp only [wrapAux] at hL
    split at hL
    · rename_i hcond
      have hpass2 : PrefixPass meas maxW (cur ++ [w]) := by
        intro k hk2 hklen
        simp only [List.length_append, List.length_singleton] at hklen
        rcases Nat.lt_or_ge k (cur.length + 1) with hlt | hge
        · have hkc : k ≤ cur.length := by omega
          rw [List.take_append_of_le_length hkc]
          exact hpass k hk2 hkc
        · have hk : k = cur.length + 1 := by omega
          have hlen : cur.length + 1 = (cur ++ [w]).length := by simp
          have htk : (cur ++ [w]).take k = cur ++ [w] := by
            rw [hk, hlen, List.take_length]
          rw [htk]
          rcases hcond with hfit | hnil
          · exact hfit
          · subst hnil
            simp at hk
            omega
      have := wrapAux_lines meas maxW rs (cur ++ [w]) hpass2 L hL
      obtain ⟨ws2, h1, h2, h3, h4⟩ := this
      refine ⟨ws2, h1, h2, h3, fun x hx => ?_⟩
      rcases h4 x hx with hxc | hxr
      · rcases List.mem_append.mp hxc with hxc2 | hxw
        · exact Or.inl hxc2
        · exact Or.inr (by simpa using Or.inl (List.mem_singleton.mp hxw))
      · exact Or.inr (List.mem_cons_of_mem w hxr)
    · rename_i hcond
      push_neg at hcond
      rcases List.mem_cons.mp hL with rfl | hL2
      · exact ⟨cur, hcond.2, hpass, rfl, fun x hx => Or.inl hx⟩
      · have hpass1 : PrefixPass meas maxW [w] := by
          intro k hk2 hklen
          simp only [List.length_singleton] at hklen
          omega
        have := wrapAux_lines meas maxW rs [w] hpass1 L hL2
        obtain ⟨ws2, h1, h2, h3, h4⟩ := this
        refine ⟨ws2, h1, h2, h3, fun x hx => ?_⟩
        rcases h4 x hx with hxw | hxr
        · exact Or.inr (by simpa using Or.inl (List.mem_singleton.mp hxw))
        · exact Or.inr (List.mem_cons_of_mem w hxr)

/-- C3: the greedy word-wrap is idempotent — re-wrapping any line of its
own output, with the same measurement function and the same maximum
width, reproduces exactly that line. -/
theorem C3_wrap_idempotent :
    ∀ (meas : String → Int) (maxW : Int) (text : String),
      ∀ L ∈ _wrap meas maxW text, _wrap meas maxW L = [L] := by
  intro meas maxW text L hL
  have hpass0 : PrefixPass meas maxW [] := by
    intro k hk2 hklen
    simp only [List.length_nil] at hklen
    omega
  obtain ⟨ws2, hne, hpass, rfl, hprov⟩ :=
    wrapAux_lines meas maxW (pySplitWs text) [] hpass0 L hL
  have hgood : ∀ w ∈ ws2, w.data ≠ [] ∧ ∀ c ∈ w.data, isWs c = false := by
    intro w hw
    rcases hprov w hw with hc | hr
    · exact absurd hc (List.not_mem_nil w)
    · exact splitWsAcc_good text.data [] (by simp) w hr
  have hsplit : pySplitWs (pyJoin ws2) = ws2 := splitWs_join ws2 hne hgood
  show wrapAux meas maxW (pySplitWs (pyJoin ws2)) [] = [pyJoin ws2]
  rw [hsplit]
  rcases ws2 with _ | ⟨w1, t⟩
  · exact absurd rfl hne
  · have hstep : wrapAux meas maxW (w1 :: t) [] = wrapAux meas maxW t [w1] := by
      simp [wrapAux]
    have hfit : ∀ k, 1 ≤ k → k ≤ t.length →
        meas (pyStrip (pyJoin ([w1] ++ t.take k))) ≤ maxW := by
      intro k hk1 hk2
      have := hpass (k + 1) (by omega) (by simpa using Nat.succ_le_succ hk2)
      simpa using this
    rw [hstep, wrapAux_all_fit meas maxW t [w1] (by simp) hfit]
    rfl

/-- C3 witness: a concrete wrapped line re-wraps to itself. -/
theorem C3_wrap_idempotent_witness :
    _wrap (fun s => (s.length : Int)) 5 "aa bb" = ["aa bb"] :=
  C3_wrap_idempotent (fun s => (s.length : Int)) 5 "aa bb cc" "aa bb" (by decide)

/-- The retry loop only inspects the attempts it consumes. -/
theorem weatherGo_congr (fmt : WFmt) (a b : Nat → Except Unit WFields) :
    ∀ n i, (∀ j, j < n → a (i + j) = b (i + j)) →
      weatherGo fmt a n i = weatherGo fmt b n i := by
  intro n
  induction n with
  | zero => intro i _; rfl
  | succ n ih =>
    intro i h
    have h0 : a i = b i := by simpa using h 0 (Nat.succ_pos n)
    have hrest : ∀ j, j < n → a (i + 1 + j) = b (i + 1 + j) := by
      intro j hj
      have := h (j + 1) (by omega)
      simpa [Nat.add_assoc, Nat.add_comm 1 j] using this
    rcases hb : b i with e | r
    · simp only [weatherGo, h0, hb]
      exact ih (i + 1) hrest
    · rcases ht : weatherTry fmt r with e2 | s
      · simp only [weatherGo, h0, hb, ht]
        exact ih (i + 1) hrest
      · simp only [weatherGo, h0, hb, ht]

/-- If every consumed attempt fails, the loop falls through to the
failure snapshot. -/
theorem weatherGo_fail (fmt : WFmt) (a : Nat → Except Unit WFields) :
    ∀ n i, (∀ j, j < n → attemptFails fmt a (i + j)) →
      weatherGo fmt a n i = weatherFailSnapshot := by
  intro n
  induction n with
  | zero => intro i _; rfl
  | succ n ih =>
    intro i h
    have hrest : ∀ j, j < n → attemptFails fmt a (i + 1 + j) := by
      intro j hj
      have := h (j + 1) (by omega)
      simpa [Nat.add_assoc, Nat.add_comm 1 j] using this
    have h0 := h 0 (Nat.succ_pos n)
    simp only [Nat.add_zero] at h0
    rcases h0 with he | ⟨r, har, htr⟩
    · simp only [weatherGo, he]
      exact ih (i + 1) hrest
    · simp only [weatherGo, har, htr]
      exact ih (i + 1) hrest

/-- If the first `k` attempts fail and attempt `k` succeeds, the loop
returns that snapshot (no further retry). -/
theorem weatherGo_succ (fmt : WFmt) (a : Nat → Except Unit WFields) :
    ∀ k n i r s, k < n → (∀ j, j < k → attemptFails fmt a (i + j)) →
      a (i + k) = Except.ok r → weatherTry fmt r = Except.ok s →
      weatherGo fmt a n i = s := by
  intro k
  induction k with
  | zero =>
    intro n i r s hk _ har htr
    obtain ⟨m, rfl⟩ : ∃ m, n = m + 1 := ⟨n - 1, by omega⟩
    simp only [Nat.add_zero] at har
    simp only [weatherGo, har, htr]
  | succ k ih =>
    intro n i r s hk h har htr
    obtain ⟨m, rfl⟩ : ∃ m, n = m + 1 := ⟨n - 1, by omega⟩
    have h0 := h 0 (Nat.succ_pos k)
    simp only [Nat.add_zero] at h0
    have har2 : a (i + 1 + k) = Except.ok r := by
      have : i + 1 + k = i + (k + 1) := by omega
      rw [this]
      exact har
    have hrest : ∀ j, j < k → attemptFails fmt a (i + 1 + j) := by
      intro j hj
      have := h (j + 1) (by omega)
      simpa [Nat.add_assoc, Nat.add_comm 1 j] using this
    rcases h0 with he | ⟨r2, har0, htr0⟩
    · simp only [weatherGo, he]
      exact ih m (i + 1) r s (by omega) hrest har2 htr
    · simp only [weatherGo, har0, htr0]
      exact ih m (i + 1) r s (by omega) hrest har2 htr

/-- A successful parse always carries `ok := true`. -/
theorem weatherTry_ok (fmt : WFmt) (r : WFields) (s : WSnapshot)
    (h : weatherTry fmt r = Except.ok s) : s.ok = true := by
  rcases ht : r.t with _ | t <;> rcases h2 : r.tmax with _ | v2 <;>
    rcases h3 : r.tmin with _ | v3 <;>
      simp only [weatherTry, ht, h2, h3] at h <;> (cases h <;> rfl)

/-- C4: `get_weather` consumes at most 3 attempt outcomes (the result is
unchanged if attempts beyond the first three differ); when all three
attempts fail it returns exactly the failure snapshot
`{ok := false, weather_code := none, lines := [info "Wetterdaten nicht
verfügbar"]}`; and when the first failures are followed by a successful
attempt within the three, the result is that attempt's snapshot, which
has `ok = true` (no further retry). -/
theorem C4_weather_retry : ∀ (fmt : WFmt) (a b : Nat → Except Unit WFields),
    ((∀ i, i < 3 → a i = b i) → get_weather fmt a = get_weather fmt b) ∧
    ((∀ i, i < 3 → attemptFails fmt a i) → get_weather fmt a = weatherFailSnapshot) ∧
    (weatherFailSnapshot =
      ⟨false, none, [some ("info", "Wetterdaten nicht verfügbar")]⟩) ∧
    (∀ k, k < 3 → (∀ j, j < k → attemptFails fmt a j) →
      ∀ r s, a k = Except.ok r → weatherTry fmt r = Except.ok s →
        get_weather fmt a = s ∧ s.ok = true) := by
  intro fmt a b
  refine ⟨fun h => ?_, fun h => ?_, rfl, fun k hk hfail r s har htr => ?_⟩
  · exact weatherGo_congr fmt a b 3 0 (fun j hj => by simpa using h j hj)
  · exact weatherGo_fail fmt a 3 0 (fun j hj => by simpa using h j hj)
  · refine ⟨?_, weatherTry_ok fmt r s htr⟩
    exact weatherGo_succ fmt a k 3 0 r s hk
      (fun j hj => by simpa using hfail j hj) (by simpa using har) htr

/-- C4 witness: with every attempt raising, the adapter returns the
failure snapshot. -/
theorem C4_weather_retry_witness :
    get_weather ⟨fun _ => "", fun _ _ => "", fun _ => "", fun _ => ""⟩
      (fun _ => Except.error ()) = weatherFailSnapshot :=
  (C4_weather_retry ⟨fun _ => "", fun _ _ => "", fun _ => "", fun _ => ""⟩
    (fun _ => Except.error ()) (fun _ => Except.error ())).2.1
    (fun _ _ => Or.inl rfl)

/-- `monthOffset` is monotone over the twelve months. -/
theorem monthOffset_mono (a b : Nat) (h1 : 1 ≤ a) (hab : a ≤ b) (hb : b ≤ 12) :
    monthOffset a ≤ monthOffset b := by
  have ha12 : a ≤ 12 := le_trans hab hb
  interval_cases a <;> interval_cases b <;> simp [monthOffset]

/-- `daysBeforeMonth` is monotone over the twelve months. -/
theorem daysBeforeMonth_mono (y a b : Nat) (h1 : 1 ≤ a) (hab : a ≤ b) (hb : b ≤ 12) :
    daysBeforeMonth y a ≤ daysBeforeMonth y b := by
  have hmo := monthOffset_mono a b h1 hab hb
  have hadj : (if 2 < a ∧ isLeap y then 1 else 0) ≤
      (if 2 < b ∧ isLeap y then 1 else 0) := by
    split_ifs with ha2 hb2
    · exact Nat.le_refl 1
    · exact absurd ⟨by omega, ha2.2⟩ hb2
    · exact Nat.zero_le 1
    · exact Nat.le_refl 0
  simp only [daysBeforeMonth]
  omega

/-- A month's days carry `daysBeforeMonth` to the next month. -/
theorem daysBeforeMonth_add_days (y m : Nat) (h1 : 1 ≤ m) (h2 : m ≤ 11) :
    daysBeforeMonth y m + daysInMonth y m = daysBeforeMonth y (m + 1) := by
  interval_cases m <;> cases hL : isLeap y <;>
    simp [daysBeforeMonth, daysInMonth, monthOffset, hL]

/-- Any valid day position stays within the year's length. -/
theorem daysBeforeMonth_add_day_le (y m d : Nat) (hv : validDate y m d) :
    daysBeforeMonth y m + d ≤ 365 + (if isLeap y then 1 else 0) := by
  obtain ⟨h1, h2, h3, h4⟩ := hv
  interval_cases m <;> cases hL : isLeap y <;>
    simp [daysInMonth, hL] at h4 <;>
      simp [daysBeforeMonth, monthOffset, hL] <;> omega

/-- Gregorian leap-day count advances by one exactly at leap years. -/
theorem leapsBefore_succ (y : Nat) (hy : 1 ≤ y) :
    leapsBefore (y + 1) = leapsBefore y + (if isLeap y then 1 else 0) := by
  by_cases h4 : y % 4 = 0
  · by_cases h100 : y % 100 = 0
    · by_cases h400 : y % 400 = 0
      · have hL : isLeap y = true := by simp [isLeap, h4, h100, h400]
        simp [leapsBefore, hL]
        omega
      · have hL : isLeap y = false := by simp [isLeap, h4, h100, h400]
        simp [leapsBefore, hL]
        omega
    · have hL : isLeap y = true := by simp [isLeap, h4, h100]
      simp [leapsBefore, hL]
      omega
  · have hL : isLeap y = false := by simp [isLeap, h4]
    simp [leapsBefore, hL]
    omega

/-- Ordinal monotonicity inside a year. -/
theorem toOrdinal_le_same_year (y m d m2 d2 : Nat)
    (hv1 : validDate y m d) (hv2 : validDate y m2 d2)
    (h : m < m2 ∨ (m = m2 ∧ d ≤ d2)) :
    toOrdinal ⟨y, m, d⟩ ≤ toOrdinal ⟨y, m2, d2⟩ := by
  obtain ⟨ha1, ha2, ha3, ha4⟩ := hv1
  obtain ⟨hb1, hb2, hb3, hb4⟩ := hv2
  simp only [toOrdinal]
  rcases h with hlt | ⟨rfl, hd⟩
  · have hstep := daysBeforeMonth_add_days y m ha1 (by omega)
    have hmono := daysBeforeMonth_mono y (m + 1) m2 (by omega) (by omega) hb2
    omega
  · omega

/-- Ordinal monotonicity into the following year. -/
theorem toOrdinal_le_next_year (y m d m2 d2 : Nat) (hy : 1 ≤ y)
    (hv1 : validDate y m d) (hv2 : validDate (y + 1) m2 d2) :
    toOrdinal ⟨y, m, d⟩ ≤ toOrdinal ⟨y + 1, m2, d2⟩ := by
  have hbound := daysBeforeMonth_add_day_le y m d hv1
  have hls := leapsBefore_succ y hy
  obtain ⟨hb1, hb2, hb3, hb4⟩ := hv2
  simp only [toOrdinal]
  omega

/-- Reading off lexicographic non-strictness from the negated date
comparison (within one year). -/
theorem not_dateLt_same (y m d tm td : Nat)
    (h : ¬ dateLt ⟨y, m, d⟩ ⟨y, tm, td⟩) :
    tm < m ∨ (tm = m ∧ td ≤ d) := by
  by_cases h1 : m < tm
  · exact absurd (show dateLt ⟨y, m, d⟩ ⟨y, tm, td⟩ from
      Or.inr ⟨rfl, Or.inl h1⟩) h
  · by_cases h2 : m = tm
    · subst h2
      by_cases h3 : d < td
      · exact absurd (show dateLt ⟨y, m, d⟩ ⟨y, m, td⟩ from
          Or.inr ⟨rfl, Or.inr ⟨rfl, h3⟩⟩) h
      · exact Or.inr ⟨rfl, by omega⟩
    · exact Or.inl (by omega)

/-- Members of a stable insertion are the new element or old members. -/
theorem mem_insertByDays (x : Int × String × Option Int) :
    ∀ (l : List (Int × String × Option Int)) z, z ∈ insertByDays x l → z = x ∨ z ∈ l
  | [], z, h => Or.inl (List.mem_singleton.mp h)
  | y :: ys, z, h => by
    simp only [insertByDays] at h
    split at h
    · rcases List.mem_cons.mp h with rfl | h2
      · exact Or.inr (List.mem_cons_self _ _)
      · rcases mem_insertByDays x ys z h2 with rfl | h3
        · exact Or.inl rfl
        · exact Or.inr (List.mem_cons_of_mem _ h3)
    · rcases List.mem_cons.mp h with rfl | h2
      · exact Or.inl rfl
      · exact Or.inr h2

/-- Stable insertion preserves sortedness by days-until. -/
theorem insertByDays_sorted (x : Int × String × Option Int) :
    ∀ l, List.Pairwise (fun a b : Int × String × Option Int => a.1 ≤ b.1) l →
      List.Pairwise (fun a b : Int × String × Option Int => a.1 ≤ b.1)
        (insertByDays x l)
  | [], _ => by simp [insertByDays]
  | y :: ys, h => by
    rcases List.pairwise_cons.mp h with ⟨hy, hys⟩
    simp only [insertByDays]
    split
    · rename_i hle
      refine List.pairwise_cons.mpr ⟨?_, insertByDays_sorted x ys hys⟩
      intro z hz
      rcases mem_insertByDays x ys z hz with rfl | h2
      · exact hle
      · exact hy z h2
    · rename_i hgt
      refine List.pairwise_cons.mpr ⟨?_, h⟩
      intro z hz
      rcases List.mem_cons.mp hz with rfl | h2
      · omega
      · have := hy z h2
        omega

/-- The embedded stable sort produces an ascending days-until sequence. -/
theorem sortByDays_sorted_aux :
    ∀ (l acc : List (Int × String × Option Int)),
      List.Pairwise (fun a b : Int × String × Option Int => a.1 ≤ b.1) acc →
      List.Pairwise (fun a b : Int × String × Option Int => a.1 ≤ b.1)
        (l.foldl (fun acc x => insertByDays x acc) acc)
  | [], _, h => h
  | x :: xs, acc, h =>
    sortByDays_sorted_aux xs (insertByDays x acc) (insertByDays_sorted x acc h)

/-- Formatting a same-day birthday. -/
theorem formatBirthday_heute (n : String) (age : Option Int) :
    formatBirthday 0 n age = "Heute: " ++ n ++ ageSuffix age := by
  have h : ("Heute" : String) ++ ": " = "Heute: " := by decide
  cases age with
  | none =>
    show "Heute" ++ ": " ++ n ++ "" = "Heute: " ++ n ++ ""
    rw [h]
  | some a =>
    show "Heute" ++ ": " ++ n ++ (if a = 0 then "" else " (" ++ toString a ++ ")") =
      "Heute: " ++ n ++ (if a = 0 then "" else " (" ++ toString a ++ ")")
    rw [h]

/-- Formatting a next-day birthday. -/
theorem formatBirthday_morgen (n : String) (age : Option Int) :
    formatBirthday 1 n age = "Morgen: " ++ n ++ ageSuffix age := by
  have h : ("Morgen" : String) ++ ": " = "Morgen: " := by decide
  cases age with
  | none =>
    show "Morgen" ++ ": " ++ n ++ "" = "Morgen: " ++ n ++ ""
    rw [h]
  | some a =>
    show "Morgen" ++ ": " ++ n ++ (if a = 0 then "" else " (" ++ toString a ++ ")") =
      "Morgen: " ++ n ++ (if a = 0 then "" else " (" ++ toString a ++ ")")
    rw [h]

/-- Formatting a birthday more than one day out. -/
theorem formatBirthday_tagen (d : Int) (n : String) (age : Option Int)
    (h0 : d ≠ 0) (h1 : d ≠ 1) :
    formatBirthday d n age =
      "in " ++ toString d ++ " Tagen: " ++ n ++ ageSuffix age := by
  have hm : (" Tagen" : String) ++ ": " = " Tagen: " := by decide
  cases age with
  | none =>
    show (if d = 0 then "Heute" else if d = 1 then "Morgen"
        else "in " ++ toString d ++ " Tagen") ++ ": " ++ n ++ "" = _
    rw [if_neg h0, if_neg h1, String.append_assoc ("in " ++ toString d) " Tagen" ": ", hm]
    rfl
  | some a =>
    show (if d = 0 then "Heute" else if d = 1 then "Morgen"
        else "in " ++ toString d ++ " Tagen") ++ ": " ++ n ++
        (if a = 0 then "" else " (" ++ toString a ++ ")") = _
    rw [if_neg h0, if_neg h1, String.append_assoc ("in " ++ toString d) " Tagen" ": ", hm]
    rfl

/-- Entries with no stored day are skipped. -/
theorem collect_day_none (today : PyDate) (days : Int) (name : String)
    (e : BEntry) (rest : List (String × BEntry)) (hd : e.day = none) :
    collectBirthdays today days ((name, e) :: rest) =
      collectBirthdays today days rest := by
  simp only [collectBirthdays, hd]

/-- Entries with no stored month are skipped. -/
theorem collect_month_none (today : PyDate) (days : Int) (name : String)
    (e : BEntry) (rest : List (String × BEntry)) (d : Nat)
    (hd : e.day = some d) (hm : e.month = none) :
    collectBirthdays today days ((name, e) :: rest) =
      collectBirthdays today days rest := by
  simp only [collectBirthdays, hd, hm]

/-- Entries with a falsy (zero) day or month are skipped. -/
theorem collect_falsy (today : PyDate) (days : Int) (name : String)
    (e : BEntry) (rest : List (String × BEntry)) (d m : Nat)
    (hd : e.day = some d) (hm : e.month = some m) (h0 : d = 0 ∨ m = 0) :
    collectBirthdays today days ((name, e) :: rest) =
      collectBirthdays today days rest := by
  simp only [collectBirthdays, hd, hm]
  rw [if_pos h0]

/-- Entries whose day/month is not a valid date this year are skipped. -/
theorem collect_invalid (today : PyDate) (days : Int) (name : String)
    (e : BEntry) (rest : List (String × BEntry)) (d m : Nat)
    (hd : e.day = some d) (hm : e.month = some m) (hnz : ¬ (d = 0 ∨ m = 0))
    (hinv : ¬ validDate today.year m d) :
    collectBirthdays today days ((name, e) :: rest) =
      collectBirthdays today days rest := by
  simp only [collectBirthdays, hd, hm]
  rw [if_neg hnz, if_pos hinv]

/-- Entries whose rolled next-year occurrence is invalid are skipped. -/
theorem collect_roll_invalid (today : PyDate) (days : Int) (name : String)
    (e : BEntry) (rest : List (String × BEntry)) (d m : Nat)
    (hd : e.day = some d) (hm : e.month = some m) (hnz : ¬ (d = 0 ∨ m = 0))
    (hv : validDate today.year m d) (hlt : dateLt ⟨today.year, m, d⟩ today)
    (hnv2 : ¬ validDate (today.year + 1) m d) :
    collectBirthdays today days ((name, e) :: rest) =
      collectBirthdays today days rest := by
  simp only [collectBirthdays, hd, hm]
  rw [if_neg hnz, if_neg (not_not_intro hv), if_pos ⟨hlt, hnv2⟩]

/-- The surviving-entry equation of the collection loop: days-until is
the ordinal distance to this year's occurrence, or next year's when this
year's has passed, and the entry is kept exactly when it is inside the
horizon. -/
theorem collect_keep (today : PyDate) (days : Int) (name : String)
    (e : BEntry) (rest : List (String × BEntry)) (d m : Nat)
    (hd : e.day = some d) (hm : e.month = some m) (hnz : ¬ (d = 0 ∨ m = 0))
    (hv : validDate today.year m d)
    (hroll : ¬ (dateLt ⟨today.year, m, d⟩ today ∧ ¬ validDate (today.year + 1) m d)) :
    collectBirthdays today days ((name, e) :: rest) =
      (if (toOrdinal (if dateLt ⟨today.year, m, d⟩ today
            then (⟨today.year + 1, m, d⟩ : PyDate)
            else ⟨today.year, m, d⟩) : Int) - toOrdinal today ≤ days then
        ((toOrdinal (if dateLt ⟨today.year, m, d⟩ today
            then (⟨today.year + 1, m, d⟩ : PyDate)
            else ⟨today.year, m, d⟩) : Int) - toOrdinal today, name,
          match e.year with
          | some yb => if yb = 0 then none
            else some (((if dateLt ⟨today.year, m, d⟩ today
              then (⟨today.year + 1, m, d⟩ : PyDate)
              else ⟨today.year, m, d⟩).year : Int) - yb)
          | none => none) :: collectBirthdays today days rest
      else collectBirthdays today days rest) := by
  simp only [collectBirthdays, hd, hm]
  rw [if_neg hnz, if_neg (not_not_intro hv), if_neg hroll]

/-- When the wrapped-line loop truncates, the cursor has moved past the
bottom padding boundary. -/
theorem drawSeq_stop_cursor (y h : Int) :
    ∀ (ts : List String) (c : Int), (drawSeq y h c ts).stopped = true →
      (drawSeq y h c ts).cursor > y + h - 40 := by
  intro ts
  induction ts with
  | nil => intro c hstop; simp [drawSeq] at hstop
  | cons t ts ih =>
    intro c hstop
    by_cases hb : c + 44 > y + h - 40
    · simp only [drawSeq, if_pos hb]
      exact hb
    · simp only [drawSeq, if_neg hb] at hstop ⊢
      exact ih (c + 44) hstop

/-- A non-truncated wrapped-line loop leaves the cursor unchanged or
within the boundary. -/
theorem drawSeq_exit (y h : Int) :
    ∀ (ts : List String) (c : Int), (drawSeq y h c ts).stopped = false →
      (drawSeq y h c ts).cursor = c ∨ (drawSeq y h c ts).cursor ≤ y + h - 40 := by
  intro ts
  induction ts with
  | nil => intro c _; left; rfl
  | cons t ts ih =>
    intro c hstop
    by_cases hb : c + 44 > y + h - 40
    · simp only [drawSeq, if_pos hb] at hstop
      cases hstop
    · simp only [drawSeq, if_neg hb] at hstop ⊢
      rcases ih (c + 44) hstop with heq | hle
      · right; rw [heq]; omega
      · right; exact hle

/-- Every line the wrapped-line loop draws sits at least 37 units above
the card bottom, given the entry cursor does. -/
theorem drawSeq_drawn_le (y h : Int) :
    ∀ (ts : List String) (c : Int), c ≤ y + h - 37 →
      ∀ p ∈ (drawSeq y h c ts).drawn, p.1 ≤ y + h - 37 := by
  intro ts
  induction ts with
  | nil => intro c _ p hp; simp [drawSeq] at hp
  | cons t ts ih =>
    intro c hc p hp
    by_cases hb : c + 44 > y + h - 40
    · simp only [drawSeq, if_pos hb] at hp
      rcases List.mem_singleton.mp hp with rfl
      exact hc
    · simp only [drawSeq, if_neg hb] at hp
      rcases List.mem_cons.mp hp with rfl | hp2
      · exact hc
      · exact ih (c + 44) (by omega) p hp2

/-- A non-truncated wrapped-line loop draws every line it is given. -/
theorem drawSeq_count (y h : Int) :
    ∀ (ts : List String) (c : Int), (drawSeq y h c ts).stopped = false →
      (drawSeq y h c ts).drawn.length = ts.length := by
  intro ts
  induction ts with
  | nil => intro c _; rfl
  | cons t ts ih =>
    intro c hstop
    by_cases hb : c + 44 > y + h - 40
    · simp only [drawSeq, if_pos hb] at hstop
      cases hstop
    · simp only [drawSeq, if_neg hb] at hstop ⊢
      simp [ih (c + 44) hstop]

/-- Once the item loop truncates, appending further items changes
nothing: the remaining items are silently dropped. -/
theorem cardLoop_ext (meas : String → Int) (maxW y h : Int) (isT isC dv : Bool) :
    ∀ (ls : List String) (extra : List String) (c : Int),
      (cardLoop meas maxW y h isT isC dv ls c).stopped = true →
      cardLoop meas maxW y h isT isC dv (ls ++ extra) c =
        cardLoop meas maxW y h isT isC dv ls c := by
  intro ls
  induction ls with
  | nil => intro extra c hstop; simp [cardLoop] at hstop
  | cons ln ls ih =>
    intro extra c hstop
    simp only [cardLoop, List.cons_append] at hstop ⊢
    by_cases hr1 : (drawSeq y h c (renderItem meas maxW isT isC ln)).stopped = true
    · rw [if_pos hr1] at hstop ⊢
      rw [if_pos hr1]
    · rw [if_neg hr1] at hstop ⊢
      simp only [List.append_eq] at hstop ⊢
      rw [ih extra _ hstop, if_neg hr1]

/-- The item loop truncates only past the bottom padding boundary. -/
theorem cardLoop_stop_cursor (meas : String → Int) (maxW y h : Int)
    (isT isC dv : Bool) :
    ∀ (ls : List String) (c : Int),
      (cardLoop meas maxW y h isT isC dv ls c).stopped = true →
      (cardLoop meas maxW y h isT isC dv ls c).cursor > y + h - 40 := by
  intro ls
  induction ls with
  | nil => intro c hstop; simp [cardLoop] at hstop
  | cons ln ls ih =>
    intro c hstop
    simp only [cardLoop] at hstop ⊢
    by_cases hr1 : (drawSeq y h c (renderItem meas maxW isT isC ln)).stopped = true
    · rw [if_pos hr1] at hstop ⊢
      exact drawSeq_stop_cursor y h _ c hr1
    · rw [if_neg hr1] at hstop ⊢
      simp only [] at hstop ⊢
      exact ih _ hstop

/-- Every content line the item loop draws sits at least 37 units above
the card bottom, given the entry cursor does. -/
theorem cardLoop_drawn_le (meas : String → Int) (maxW y h : Int)
    (isT isC dv : Bool) :
    ∀ (ls : List String) (c : Int), c ≤ y + h - 37 →
      ∀ p ∈ (cardLoop meas maxW y h isT isC dv ls c).drawn, p.1 ≤ y + h - 37 := by
  intro ls
  induction ls with
  | nil => intro c _ p hp; simp [cardLoop] at hp
  | cons ln ls ih =>
    intro c hc p hp
    simp only [cardLoop] at hp
    by_cases hr1 : (drawSeq y h c (renderItem meas maxW isT isC ln)).stopped = true
    · rw [if_pos hr1] at hp
      exact drawSeq_drawn_le y h _ c hc p hp
    · rw [if_neg hr1] at hp
      simp only [] at hp
      rcases List.mem_append.mp hp with hp1 | hp2
      · exact drawSeq_drawn_le y h _ c hc p hp1
      · refine ih _ ?_ p hp2
        have hexit := drawSeq_exit y h (renderItem meas maxW isT isC ln) c
          (by simpa using hr1)
        by_cases hdiv : (drawSeq y h c (renderItem meas maxW isT isC ln)).cursor <
            y + h - 60 ∧ dv = true
        · rw [if_pos hdiv]
          omega
        · rw [if_neg hdiv]
          omega

/-- A non-truncated item loop draws every wrapped line of every item. -/
theorem cardLoop_count (meas : String → Int) (maxW y h : Int)
    (isT isC dv : Bool) :
    ∀ (ls : List String) (c : Int),
      (cardLoop meas maxW y h isT isC dv ls c).stopped = false →
      (cardLoop meas maxW y h isT isC dv ls c).drawn.length =
        (ls.map (fun ln => (renderItem meas maxW isT isC ln).length)).sum := by
  intro ls
  induction ls with
  | nil => intro c _; rfl
  | cons ln ls ih =>
    intro c hstop
    simp only [cardLoop] at hstop ⊢
    by_cases hr1 : (drawSeq y h c (renderItem meas maxW isT isC ln)).stopped = true
    · rw [if_pos hr1] at hstop
      rw [hstop] at hr1
      cases hr1
    · rw [if_neg hr1] at hstop ⊢
      simp only [] at hstop ⊢
      rw [List.length_append, drawSeq_count y h _ c (by simpa using hr1), ih _ hstop]
      simp

/-- C2: `card_block` truncation — once drawing a wrapped line moves the
cursor past the bottom padding boundary `y + h - 40`, the routine stops,
returns the cursor, and silently drops all remaining items (appending
further items changes nothing); for any card at least 123 units tall no
content line is drawn lower than 37 units above the card bottom; a
non-truncated run draws exactly the wrapped lines of all items; and the
returned value is the final cursor.  Being a total function of its
inputs, the truncation point is deterministic for fixed inputs and font
metrics. -/
theorem C2_card_truncation :
    ∀ (meas : String → Int) (style : DashStyle) (x y w h : Int) (header : String)
      (lines extra : List String),
      ((cardRun meas style x y w h header lines).stopped = true →
        cardRun meas style x y w h header (lines ++ extra) =
          cardRun meas style x y w h header lines) ∧
      ((cardRun meas style x y w h header lines).stopped = true →
        (cardRun meas style x y w h header lines).cursor > y + h - 40) ∧
      (123 ≤ h → ∀ p ∈ (cardRun meas style x y w h header lines).drawn,
        p.1 ≤ y + h - 37) ∧
      ((cardRun meas style x y w h header lines).stopped = false →
        (cardRun meas style x y w h header lines).drawn.length =
          (lines.map (fun ln => (renderItem meas (w - 68) (isTodosHeader header)
            (isCalendarHeader header) ln).length)).sum) ∧
      card_block meas style x y w h header lines =
        (cardRun meas style x y w h header lines).cursor := by
  intro meas style x y w h header lines extra
  refine ⟨fun hstop => ?_, fun hstop => ?_, fun hh p hp => ?_, fun hstop => ?_, rfl⟩
  · exact cardLoop_ext meas (w - 68) y h _ _ _ lines extra (y + 86) hstop
  · exact cardLoop_stop_cursor meas (w - 68) y h _ _ _ lines (y + 86) hstop
  · exact cardLoop_drawn_le meas (w - 68) y h _ _ _ lines (y + 86) (by omega) p hp
  · exact cardLoop_count meas (w - 68) y h _ _ _ lines (y + 86) hstop

/-- C2 witness: a to-do card too short for its items truncates after the
first line; a third item appended after truncation changes nothing. -/
theorem C2_card_truncation_witness :
    cardRun (fun s => (s.length : Int)) DashStyle.cards 0 0 168 130 "To-dos"
        (["- [ ] aaa", "- [ ] bbb"] ++ ["- [ ] ccc"]) =
      cardRun (fun s => (s.length : Int)) DashStyle.cards 0 0 168 130 "To-dos"
        ["- [ ] aaa", "- [ ] bbb"] :=
  (C2_card_truncation (fun s => (s.length : Int)) DashStyle.cards 0 0 168 130
    "To-dos" ["- [ ] aaa", "- [ ] bbb"] ["- [ ] ccc"]).1 (by decide)

/-- C6 counterexample: with today = 2024-06-10 and the entry
`{day 10, month 6, year 2024}` a birth year is known, so the claim's
formatting rule demands a " (0)" age suffix, but the adapter formats the
entry as "Heute: NAME" with no suffix. -/
theorem C6_counterexample :
    get_upcoming_birthdays ⟨2024, 6, 10⟩
      (some [("NAME", ⟨some 10, some 6, some 2024⟩)]) 7 = ["Heute: NAME"] ∧
    (["Heute: NAME"] : List String) ≠ ["Heute: NAME (0)"] := by
  refine ⟨by decide, by decide⟩

/-- C6 (amended): the birthday adapter returns the empty sequence on a
missing or malformed file; every collected entry has a nonnegative
days-until within the horizon; entries with a falsy or invalid calendar
day/month are skipped (also when next year's rolled occurrence is
invalid); days-until is the ordinal distance to this year's occurrence,
or next year's when this year's has passed, with age =
projected-occurrence-year minus birth year; surviving entries beyond the
horizon are dropped; the output is the sorted-ascending collected list
formatted as "Heute: ", "Morgen: " or "in N Tagen: " plus the name,
appending " (age)" only when a nonzero birth year is known and the
computed age is nonzero. -/
theorem C6_birthdays_amended :
    (∀ today days, get_upcoming_birthdays today none days = []) ∧
    (∀ (today : PyDate) (days : Int) entries, 1 ≤ today.year →
      validDate today.year today.month today.day →
      ∀ x ∈ collectBirthdays today days entries, 0 ≤ x.1 ∧ x.1 ≤ days) ∧
    (∀ today days name (e : BEntry) rest d m, e.day = some d → e.month = some m →
      ¬ (d = 0 ∨ m = 0) → ¬ validDate today.year m d →
      collectBirthdays today days ((name, e) :: rest) =
        collectBirthdays today days rest) ∧
    (∀ today days name (e : BEntry) rest d m, e.day = some d → e.month = some m →
      ¬ (d = 0 ∨ m = 0) → validDate today.year m d →
      dateLt ⟨today.year, m, d⟩ today → ¬ validDate (today.year + 1) m d →
      collectBirthdays today days ((name, e) :: rest) =
        collectBirthdays today days rest) ∧
    (∀ today days name (e : BEntry) rest d m (bty : PyDate),
      e.day = some d → e.month = some m → ¬ (d = 0 ∨ m = 0) →
      validDate today.year m d →
      ¬ (dateLt ⟨today.year, m, d⟩ today ∧ ¬ validDate (today.year + 1) m d) →
      bty = (if dateLt ⟨today.year, m, d⟩ today then (⟨today.year + 1, m, d⟩ : PyDate)
        else ⟨today.year, m, d⟩) →
      ((toOrdinal bty : Int) - toOrdinal today ≤ days →
        collectBirthdays today days ((name, e) :: rest) =
          ((toOrdinal bty : Int) - toOrdinal today, name,
            match e.year with
            | some yb => if yb = 0 then none else some ((bty.year : Int) - yb)
            | none => none) :: collectBirthdays today days rest) ∧
      (¬ ((toOrdinal bty : Int) - toOrdinal today ≤ days) →
        collectBirthdays today days ((name, e) :: rest) =
          collectBirthdays today days rest)) ∧
    (∀ l, List.Pairwise (fun a b : Int × String × Option Int => a.1 ≤ b.1)
      (sortByDays l)) ∧
    (∀ today entries days, get_upcoming_birthdays today (some entries) days =
      (sortByDays (collectBirthdays today days entries)).map
        (fun t => formatBirthday t.1 t.2.1 t.2.2)) ∧
    (∀ n age, formatBirthday 0 n age = "Heute: " ++ n ++ ageSuffix age) ∧
    (∀ n age, formatBirthday 1 n age = "Morgen: " ++ n ++ ageSuffix age) ∧
    (∀ (dv : Int) n age, dv ≠ 0 → dv ≠ 1 →
      formatBirthday dv n age =
        "in " ++ toString dv ++ " Tagen: " ++ n ++ ageSuffix age) ∧
    (∀ a : Int, a ≠ 0 → ageSuffix (some a) = " (" ++ toString a ++ ")") ∧
    (get_upcoming_birthdays ⟨2024, 6, 10⟩
      (some [("NAME", ⟨some 10, some 6, some 1990⟩)]) 7 = ["Heute: NAME (34)"]) ∧
    (get_upcoming_birthdays ⟨2024, 6, 10⟩
      (some [("NAME", ⟨some 11, some 6, none⟩)]) 7 = ["Morgen: NAME"]) ∧
    (collectBirthdays ⟨2024, 6, 10⟩ 365 [("A", ⟨some 1, some 1, none⟩)] =
      [((toOrdinal ⟨2025, 1, 1⟩ : Int) - (toOrdinal ⟨2024, 6, 10⟩ : Int), "A", none)] ∧
      (0 : Int) ≤ (toOrdinal ⟨2025, 1, 1⟩ : Int) - (toOrdinal ⟨2024, 6, 10⟩ : Int)) := by
  refine ⟨fun _ _ => rfl, ?_, ?_, ?_, ?_, ?_, fun _ _ _ => rfl,
    formatBirthday_heute, formatBirthday_morgen, formatBirthday_tagen,
    fun a ha => by simp [ageSuffix, ha], by decide, by decide, by decide, by decide⟩
  · intro today days entries hy hvt
    obtain ⟨ty, tm, td⟩ := today
    induction entries with
    | nil => intro x hx; exact absurd hx (List.not_mem_nil x)
    | cons p rest ih =>
      obtain ⟨name, e⟩ := p
      intro x hx
      rcases hd : e.day with _ | d
      · rw [collect_day_none _ _ _ _ _ hd] at hx
        exact ih x hx
      rcases hm : e.month with _ | m
      · rw [collect_month_none _ _ _ _ _ _ hd hm] at hx
        exact ih x hx
      by_cases h0 : d = 0 ∨ m = 0
      · rw [collect_falsy _ _ _ _ _ _ _ hd hm h0] at hx
        exact ih x hx
      by_cases hv1 : validDate ty m d
      case neg =>
        rw [collect_invalid _ _ _ _ _ _ _ hd hm h0 hv1] at hx
        exact ih x hx
      by_cases hroll : dateLt ⟨ty, m, d⟩ ⟨ty, tm, td⟩ ∧ ¬ validDate (ty + 1) m d
      · rw [collect_roll_invalid _ _ _ _ _ _ _ hd hm h0 hv1 hroll.1 hroll.2] at hx
        exact ih x hx
      rw [collect_keep _ _ _ _ _ _ _ hd hm h0 hv1 hroll] at hx
      by_cases hlt : dateLt ⟨ty, m, d⟩ ⟨ty, tm, td⟩
      · rw [if_pos hlt] at hx
        by_cases hdu : (toOrdinal (⟨ty + 1, m, d⟩ : PyDate) : Int) -
            toOrdinal ⟨ty, tm, td⟩ ≤ days
        · rw [if_pos hdu] at hx
          rcases List.mem_cons.mp hx with rfl | hx2
          · have hv2 : validDate (ty + 1) m d := by
              by_contra hc
              exact hroll ⟨hlt, hc⟩
            have hord := toOrdinal_le_next_year ty tm td m d hy hvt hv2
            refine ⟨?_, hdu⟩
            show (0 : Int) ≤ (toOrdinal (⟨ty + 1, m, d⟩ : PyDate) : Int) -
              toOrdinal (⟨ty, tm, td⟩ : PyDate)
            omega
          · exact ih x hx2
        · rw [if_neg hdu] at hx
          exact ih x hx
      · rw [if_neg hlt] at hx
        by_cases hdu : (toOrdinal (⟨ty, m, d⟩ : PyDate) : Int) -
            toOrdinal ⟨ty, tm, td⟩ ≤ days
        · rw [if_pos hdu] at hx
          rcases List.mem_cons.mp hx with rfl | hx2
          · have hlex := not_dateLt_same ty m d tm td hlt
            have hord := toOrdinal_le_same_year ty tm td m d hvt hv1 hlex
            refine ⟨?_, hdu⟩
            show (0 : Int) ≤ (toOrdinal (⟨ty, m, d⟩ : PyDate) : Int) -
              toOrdinal (⟨ty, tm, td⟩ : PyDate)
            omega
          · exact ih x hx2
        · rw [if_neg hdu] at hx
          exact ih x hx
  · intro today days name e rest d m hd hm hnz hinv
    exact collect_invalid _ _ _ _ _ _ _ hd hm hnz hinv
  · intro today days name e rest d m hd hm hnz hv hlt hnv2
    exact collect_roll_invalid _ _ _ _ _ _ _ hd hm hnz hv hlt hnv2
  · intro today days name e rest d m bty hd hm hnz hv hroll hbty
    rw [collect_keep _ _ _ _ _ _ _ hd hm hnz hv hroll, ← hbty]
    refine ⟨fun hdu => ?_, fun hdu => ?_⟩
    · rw [if_pos hdu]
    · rw [if_neg hdu]
  · intro l
    exact sortByDays_sorted_aux l [] List.Pairwise.nil

/-- C6 witness: a Feb 29 entry looked up in the non-leap year 2023 is an
invalid calendar date and is skipped. -/
theorem C6_birthdays_amended_witness :
    collectBirthdays ⟨2023, 6, 10⟩ 7 [("X", ⟨some 29, some 2, none⟩)] =
      collectBirthdays ⟨2023, 6, 10⟩ 7 [] :=
  C6_birthdays_amended.2.2.1 ⟨2023, 6, 10⟩ 7 "X" ⟨some 29, some 2, none⟩ [] 29 2
    rfl rfl (by decide) (by decide)

/-- C10 witness: a nonzero age of 34 is appended in parentheses. -/
theorem C10_zero_age_suffix_witness :
    formatBirthday 0 "NAME" (some 34) = formatBirthday 0 "NAME" none ++ " (" ++ toString (34 : Int) ++ ")" :=
  C10_zero_age_suffix.2.1 0 "NAME" 34 (by decide)

end MorningDashboard
